import Mathlib

/-!
Verification of the version-resolution script `determine_next_version.py`.

The script depends on the external `semver` package, which is not part of
this repository.  Following the specification's data model, a semantic
version is modelled with `major`, `minor`, `patch` numbers, a prerelease
given as a list of identifiers (each numeric or alphanumeric), and build
metadata (accepted but ignored for ordering).  The script's own functions
(`get_tags`'s filter, `get_latest_semver`, `get_latest_prerelease_for_base`,
`main`) are translated line by line.
-/

/-- A single semver prerelease identifier: numeric or alphanumeric. -/
inductive PreId where
  | num (n : Nat)
  | str (s : String)
deriving DecidableEq, Repr

/-- Modelled from the spec: the `semver.VersionInfo` value of the external
`semver` package — `major.minor.patch`, optional prerelease identifiers,
optional build identifiers. -/
structure VersionInfo where
  major : Nat
  minor : Nat
  patch : Nat
  prerelease : List PreId
  build : List String
deriving DecidableEq, Repr

/-- Digits of a decimal string to a number (used by parsing). -/
def digitsToNat (cs : List Char) : Nat :=
  cs.foldl (fun a c => a * 10 + (c.toNat - 48)) 0

/-- Decimal digits of a number, with explicit fuel for structural recursion. -/
def natToDigitsAux : Nat → Nat → List Char
  | 0, _ => []
  | _ + 1, 0 => []
  | fuel + 1, n => natToDigitsAux fuel (n / 10) ++ [Char.ofNat (48 + n % 10)]

/-- Decimal rendering of a number. -/
def natToString (n : Nat) : String :=
  if n = 0 then "0" else String.mk (natToDigitsAux (n + 1) n)

/-- A character allowed in semver identifiers: ASCII alphanumeric or hyphen. -/
def isIdentChar (c : Char) : Bool := c.isDigit || c.isAlpha || c == '-'

/-- Split a character list on `'.'`, keeping empty chunks (like `"a..b".split`). -/
def splitOnDot : List Char → List (List Char)
  | [] => [[]]
  | c :: cs =>
    if c = '.' then [] :: splitOnDot cs
    else
      match splitOnDot cs with
      | [] => [[c]]
      | g :: gs => (c :: g) :: gs

/-- Break a character list at the first occurrence of `sep`; the second
component is `none` when `sep` does not occur. -/
def breakAt (sep : Char) : List Char → List Char × Option (List Char)
  | [] => ([], none)
  | c :: cs =>
    if c = sep then ([], some cs)
    else
      let r := breakAt sep cs
      (c :: r.1, r.2)

/-- Sequence an option-producing function over a list. -/
def optList {α β : Type} (f : α → Option β) : List α → Option (List β)
  | [] => some []
  | a :: as =>
    match f a, optList f as with
    | some b, some bs => some (b :: bs)
    | _, _ => none

/-- A numeric identifier of the version core: digits only, no leading zero. -/
def parseNumId (cs : List Char) : Option Nat :=
  if cs = [] then none
  else if cs.all Char.isDigit then
    if cs.head? = some '0' ∧ cs.length ≠ 1 then none
    else some (digitsToNat cs)
  else none

/-- A prerelease identifier: digits-only identifiers must have no leading
zero and become numeric; any other nonempty identifier over the allowed
alphabet is alphanumeric. -/
def parsePreId (cs : List Char) : Option PreId :=
  if cs = [] then none
  else if ¬ (cs.all isIdentChar) then none
  else if cs.all Char.isDigit then
    if cs.head? = some '0' ∧ cs.length ≠ 1 then none
    else some (PreId.num (digitsToNat cs))
  else some (PreId.str (String.mk cs))

/-- A build identifier: nonempty, over the allowed alphabet. -/
def parseBuildId (cs : List Char) : Option String :=
  if cs = [] then none
  else if ¬ (cs.all isIdentChar) then none
  else some (String.mk cs)

/-- Modelled from the spec: strict semver parsing as done by
`semver.VersionInfo.parse` — `major.minor.patch[-prerelease][+build]`. -/
def parseVersionChars (s : List Char) : Option VersionInfo :=
  let p1 := breakAt '+' s
  let p2 := breakAt '-' p1.1
  match splitOnDot p2.1 with
  | [ma, mi, pa] =>
    match parseNumId ma, parseNumId mi, parseNumId pa with
    | some M, some m, some p =>
      let pre : Option (List PreId) :=
        match p2.2 with
        | none => some []
        | some pcs => optList parsePreId (splitOnDot pcs)
      let bld : Option (List String) :=
        match p1.2 with
        | none => some []
        | some bcs => optList parseBuildId (splitOnDot bcs)
      match pre, bld with
      | some preIds, some bldIds => some ⟨M, m, p, preIds, bldIds⟩
      | _, _ => none
    | _, _, _ => none
  | _ => none

/-- Comparison of naturals as a three-way ordering. -/
def natCmp (a b : Nat) : Ordering :=
  if a < b then .lt else if b < a then .gt else .eq

/-- Code-point comparison of characters (Python string ordering is
pointwise on code points). -/
def cmpChar (a b : Char) : Ordering := natCmp a.toNat b.toNat

/-- Lexicographic comparison of lists by an element comparison. -/
def lexCmp {α : Type} (cmp : α → α → Ordering) : List α → List α → Ordering
  | [], [] => .eq
  | [], _ :: _ => .lt
  | _ :: _, [] => .gt
  | a :: as, b :: bs =>
    match cmp a b with
    | .eq => lexCmp cmp as bs
    | o => o

/-- Lexicographic string comparison, as Python compares strings. -/
def cmpStr (a b : String) : Ordering := lexCmp cmpChar a.data b.data

/-- Modelled from the spec: semver identifier precedence — numeric
identifiers compare numerically and are lower than alphanumeric ones,
alphanumeric ones compare lexically. -/
def cmpPreId : PreId → PreId → Ordering
  | .num a, .num b => natCmp a b
  | .num _, .str _ => .lt
  | .str _, .num _ => .gt
  | .str a, .str b => cmpStr a b

/-- Comparison of prerelease identifier sequences. -/
def cmpPreList : List PreId → List PreId → Ordering := lexCmp cmpPreId

/-- Modelled from the spec: prerelease precedence — a version without a
prerelease outranks one with a prerelease; two prereleases compare
identifier by identifier. -/
def cmpPre : List PreId → List PreId → Ordering
  | [], [] => .eq
  | [], _ :: _ => .gt
  | _ :: _, [] => .lt
  | as, bs => cmpPreList as bs

/-- Modelled from the spec: semver precedence (`compare` of the external
`semver` package) — major, then minor, then patch, then prerelease; build
metadata is ignored. -/
def cmpVer (a b : VersionInfo) : Ordering :=
  (natCmp a.major b.major).then
    ((natCmp a.minor b.minor).then
      ((natCmp a.patch b.patch).then (cmpPre a.prerelease b.prerelease)))

/-- Modelled from the spec: `finalize_version` — strip prerelease and
build, keep `major.minor.patch`. -/
def finalize_version (v : VersionInfo) : VersionInfo :=
  ⟨v.major, v.minor, v.patch, [], []⟩

/-- Modelled from the spec: `bump_patch` — raise patch, drop prerelease
and build. -/
def bump_patch (v : VersionInfo) : VersionInfo :=
  ⟨v.major, v.minor, v.patch + 1, [], []⟩

/-- Modelled from the spec: `bump_minor`. -/
def bump_minor (v : VersionInfo) : VersionInfo :=
  ⟨v.major, v.minor + 1, 0, [], []⟩

/-- Modelled from the spec: `bump_major`. -/
def bump_major (v : VersionInfo) : VersionInfo :=
  ⟨v.major + 1, 0, 0, [], []⟩

/-- Increment the trailing decimal run of a string if there is one,
mirroring the increment the external package applies to the last
prerelease component (width of a shorter replacement is preserved). -/
def incTrailingNumber (s : String) : String :=
  let rcs := s.data.reverse
  let digitsRev := rcs.takeWhile Char.isDigit
  match digitsRev with
  | [] => s
  | _ :: _ =>
    let restRev := rcs.dropWhile Char.isDigit
    let digits := digitsRev.reverse
    let next := (natToString (digitsToNat digits + 1)).data
    let pad := digits.take (digits.length - next.length)
    String.mk (restRev.reverse ++ pad ++ next)

/-- Increment the last prerelease identifier: a numeric one is raised by
one, an alphanumeric one has its trailing digits raised (if any). -/
def incLast : List PreId → List PreId
  | [] => []
  | [PreId.num n] => [PreId.num (n + 1)]
  | [PreId.str s] => [PreId.str (incTrailingNumber s)]
  | p :: rest => p :: incLast rest

/-- Modelled from the spec: `bump_prerelease` (default token `rc`) —
raise the numeric tail of the prerelease, dropping build metadata. -/
def bump_prerelease (v : VersionInfo) : VersionInfo :=
  { major := v.major, minor := v.minor, patch := v.patch,
    prerelease :=
      incLast (if v.prerelease = [] then [PreId.str "rc", PreId.num 0] else v.prerelease),
    build := [] }

/-- Semver rendering: `major.minor.patch[-prerelease][+build]`. -/
def joinDots : List String → String
  | [] => ""
  | [s] => s
  | s :: rest => s ++ "." ++ joinDots rest

/-- Rendering of a prerelease identifier. -/
def preIdStr : PreId → String
  | .num n => natToString n
  | .str s => s

/-- Modelled from the spec: `str()` of a version. -/
def verStr (v : VersionInfo) : String :=
  natToString v.major ++ "." ++ natToString v.minor ++ "." ++ natToString v.patch
    ++ (if v.prerelease = [] then "" else "-" ++ joinDots (v.prerelease.map preIdStr))
    ++ (if v.build = [] then "" else "+" ++ joinDots v.build)

/-- `s.startswith('v')` of Python. -/
def startsWithV (s : String) : Bool :=
  match s.data with
  | [] => false
  | c :: _ => c = 'v'

/-- The final normalisation of `main`: prepend `v` unless already present. -/
def vtag (s : String) : String := if startsWithV s then s else "v" ++ s

/-- `tag_str[1:]` then parse, as both tag scans do. -/
def parseTag (t : String) : Option VersionInfo :=
  parseVersionChars (t.data.drop 1)

/-- The sublist of tags that parse, in order, as parsed versions. -/
def parsedVersions (tags : List String) : List VersionInfo :=
  tags.filterMap parseTag

/-- One step of `get_latest_semver`'s loop:
`if latest_v is None or v > latest_v: latest_v = v`. -/
def gls_step (acc : Option VersionInfo) (v : VersionInfo) : Option VersionInfo :=
  match acc with
  | none => some v
  | some l => if cmpVer v l = .gt then some v else some l

/-- `get_latest_semver`: scan all tags (the source iterates the reversed
list), keep the semver-greatest parseable one. -/
def get_latest_semver (tags : List String) : Option VersionInfo :=
  tags.reverse.foldl
    (fun acc t =>
      match parseTag t with
      | none => acc
      | some v => gls_step acc v)
    none

/-- Python comparison `x > y` on two prerelease identifiers: defined for
two numbers or two strings, a `TypeError` (here `none`) otherwise. -/
def pyGt : PreId → PreId → Option Bool
  | PreId.num a, PreId.num b => some (decide (b < a))
  | PreId.str a, PreId.str b => some (cmpStr a b == Ordering.gt)
  | _, _ => none

/-- One step of `get_latest_prerelease_for_base`'s loop: accept a tag
whose `major.minor.patch` equals the base and whose prerelease is a pair
beginning with the token; keep it when there is no previous candidate or
when its second component compares greater (a `TypeError` skips the tag). -/
def glp_step (base_version : VersionInfo) (token : String)
    (acc : Option VersionInfo) (v : VersionInfo) : Option VersionInfo :=
  if v.major = base_version.major ∧ v.minor = base_version.minor ∧
      v.patch = base_version.patch then
    match v.prerelease with
    | [p0, p1] =>
      if p0 = PreId.str token then
        match acc with
        | none => some v
        | some l =>
          match l.prerelease with
          | [_, q1] =>
            match pyGt p1 q1 with
            | some true => some v
            | _ => acc
          | _ => acc
      else acc
    | _ => acc
  else acc

/-- `get_latest_prerelease_for_base`: latest prerelease tag of the given
base version and token. -/
def get_latest_prerelease_for_base (tags : List String) (base_version : VersionInfo)
    (token : String) : Option VersionInfo :=
  tags.reverse.foldl
    (fun acc t =>
      match parseTag t with
      | none => acc
      | some v => glp_step base_version token acc v)
    none

/-- The bump-type request read from `BUMP_TYPE`. -/
inductive BumpType where
  | alpha | beta | rc | promote_to_final | patch | minor | major
deriving DecidableEq, Repr

/-- The resolution output: the `next_version` tag and the prerelease flag. -/
structure ResolutionResult where
  next_tag : String
  is_prerelease : Bool
deriving DecidableEq, Repr

/-- The alpha/beta/rc branch of `main`: anchor to the finalized overall
latest, continue the series if one is found, else start it at 1. -/
def prereleaseBumpResult (tags : List String) (current_v : VersionInfo)
    (token : String) : ResolutionResult :=
  let base_for_series := finalize_version current_v
  let next_v :=
    match get_latest_prerelease_for_base tags base_for_series token with
    | some p => bump_prerelease p
    | none => { base_for_series with prerelease := [PreId.str token, PreId.num 1] }
  ⟨vtag (verStr next_v), true⟩

/-- `main` of the script as a pure function of the bump type and the tag
list: `none` is a fatal error (`sys.exit(1)` with no outputs). -/
def main_resolve (bump_type : BumpType) (tags : List String) : Option ResolutionResult :=
  match get_latest_semver tags with
  | none =>
    if bump_type = BumpType.alpha then some ⟨vtag "0.2.0-alpha.1", true⟩ else none
  | some current_v =>
    match bump_type with
    | .alpha => some (prereleaseBumpResult tags current_v "alpha")
    | .beta => some (prereleaseBumpResult tags current_v "beta")
    | .rc => some (prereleaseBumpResult tags current_v "rc")
    | .promote_to_final =>
      if current_v.prerelease = [] then none
      else some ⟨vtag (verStr (finalize_version current_v)), false⟩
    | .patch => some ⟨vtag (verStr (bump_patch (finalize_version current_v))), false⟩
    | .minor => some ⟨vtag (verStr (bump_minor (finalize_version current_v))), false⟩
    | .major => some ⟨vtag (verStr (bump_major (finalize_version current_v))), false⟩

/-- `get_tags` lists tags matching the pattern `v*` (the listing itself is
external version control; the sort option is irrelevant to a rescan). -/
def get_tags (repoTags : List String) : List String :=
  repoTags.filter (fun t => startsWithV t)

/-- The whole pipeline: list the repository's `v*` tags, then resolve. -/
def resolve_pipeline (bump_type : BumpType) (repoTags : List String) :
    Option ResolutionResult :=
  main_resolve bump_type (get_tags repoTags)

/-- The version as a single identifier list whose lexicographic order is
exactly `cmpVer`: the three numbers, then a marker (`1` for a final
version, `0` before a prerelease) so that final versions rank above. -/
def verKey (v : VersionInfo) : List PreId :=
  PreId.num v.major :: PreId.num v.minor :: PreId.num v.patch ::
    (match v.prerelease with
     | [] => [PreId.num 1]
     | ps => PreId.num 0 :: ps)

/-- The numeric suffix a parsed version contributes to the `(base, token)`
series, when it is a well-shaped member of it. -/
def candSuffix (base : VersionInfo) (token : String) (v : VersionInfo) : Option Nat :=
  if v.major = base.major ∧ v.minor = base.minor ∧ v.patch = base.patch then
    match v.prerelease with
    | [p0, PreId.num n] => if p0 = PreId.str token then some n else none
    | _ => none
  else none

/-- The numeric suffixes of the series members among a tag list. -/
def candSuffixes (tags : List String) (base : VersionInfo) (token : String) : List Nat :=
  (parsedVersions tags).filterMap (candSuffix base token)

/-- A version whose two-identifier prerelease (if it has one) carries a
numeric second identifier — the shape the script's series bump expects. -/
def PreShapeOK (v : VersionInfo) : Bool :=
  match v.prerelease with
  | [_, PreId.num _] => true
  | [_, _] => false
  | _ => true

/-- The prerelease token selected by `main` for the three prerelease
bump kinds. -/
def preToken : BumpType → Option String
  | .alpha => some "alpha"
  | .beta => some "beta"
  | .rc => some "rc"
  | _ => none

/-! ### Order-theoretic facts about the comparators -/

theorem natCmp_eq_iff (a b : Nat) : natCmp a b = .eq ↔ a = b := by
  unfold natCmp; split_ifs <;> simp_all <;> omega

theorem natCmp_lt_iff (a b : Nat) : natCmp a b = .lt ↔ a < b := by
  unfold natCmp; split_ifs <;> simp_all

theorem natCmp_swap (a b : Nat) : (natCmp a b).swap = natCmp b a := by
  unfold natCmp
  split_ifs <;> simp_all [Ordering.swap]
  omega

theorem natCmp_lt_trans {a b c : Nat} (h1 : natCmp a b = .lt) (h2 : natCmp b c = .lt) :
    natCmp a c = .lt := by
  rw [natCmp_lt_iff] at *; omega

theorem cmpChar_eq_iff (a b : Char) : cmpChar a b = .eq ↔ a = b := by
  unfold cmpChar
  rw [natCmp_eq_iff]
  constructor
  · intro h; exact Char.eq_of_val_eq (UInt32.ext h)
  · intro h; rw [h]

theorem cmpChar_swap (a b : Char) : (cmpChar a b).swap = cmpChar b a := natCmp_swap _ _

theorem cmpChar_lt_trans {a b c : Char} (h1 : cmpChar a b = .lt) (h2 : cmpChar b c = .lt) :
    cmpChar a c = .lt := natCmp_lt_trans h1 h2

theorem lexCmp_cons {α : Type} (cmp : α → α → Ordering) (a b : α) (as bs : List α) :
    lexCmp cmp (a :: as) (b :: bs) = (cmp a b).then (lexCmp cmp as bs) := by
  cases h : cmp a b <;> simp [lexCmp, h, Ordering.then]

theorem lexCmp_eq_iff {α : Type} (cmp : α → α → Ordering)
    (heq : ∀ a b, cmp a b = .eq ↔ a = b) :
    ∀ as bs : List α, lexCmp cmp as bs = .eq ↔ as = bs := by
  intro as
  induction as with
  | nil => intro bs; cases bs <;> simp [lexCmp]
  | cons a as ih =>
    intro bs
    cases bs with
    | nil => simp [lexCmp]
    | cons b bs =>
      rw [lexCmp_cons]
      constructor
      · intro h
        have hc : cmp a b = .eq := by
          cases hc : cmp a b
          · rw [hc] at h; simp [Ordering.then] at h
          · rfl
          · rw [hc] at h; simp [Ordering.then] at h
        have h1 : a = b := (heq a b).mp hc
        rw [hc] at h; simp only [Ordering.then] at h
        have h2 : as = bs := (ih bs).mp h
        rw [h1, h2]
      · intro h
        injection h with h1 h2
        rw [h1, (heq b b).mpr rfl]
        simp only [Ordering.then]
        exact (ih bs).mpr h2

theorem lexCmp_swap {α : Type} (cmp : α → α → Ordering)
    (hswap : ∀ a b, (cmp a b).swap = cmp b a) :
    ∀ as bs : List α, (lexCmp cmp as bs).swap = lexCmp cmp bs as := by
  intro as
  induction as with
  | nil => intro bs; cases bs <;> simp [lexCmp, Ordering.swap]
  | cons a as ih =>
    intro bs
    cases bs with
    | nil => simp [lexCmp, Ordering.swap]
    | cons b bs =>
      rw [lexCmp_cons, lexCmp_cons, ← hswap a b, ← ih bs]
      cases cmp a b <;> simp [Ordering.then, Ordering.swap]

theorem lexCmp_lt_trans {α : Type} (cmp : α → α → Ordering)
    (heq : ∀ a b, cmp a b = .eq ↔ a = b)
    (htrans : ∀ a b c, cmp a b = .lt → cmp b c = .lt → cmp a c = .lt) :
    ∀ as bs cs : List α, lexCmp cmp as bs = .lt → lexCmp cmp bs cs = .lt →
      lexCmp cmp as cs = .lt := by
  intro as
  induction as with
  | nil =>
    intro bs cs h1 h2
    cases bs with
    | nil => exact h2
    | cons b bs => cases cs with
      | nil => simp [lexCmp] at h2
      | cons c cs => simp [lexCmp]
  | cons a as ih =>
    intro bs cs h1 h2
    cases bs with
    | nil => simp [lexCmp] at h1
    | cons b bs =>
      cases cs with
      | nil => simp [lexCmp] at h2
      | cons c cs =>
        rw [lexCmp_cons] at h1 h2 ⊢
        cases hab : cmp a b with
        | gt => rw [hab] at h1; simp [Ordering.then] at h1
        | eq =>
          have habeq : a = b := (heq a b).mp hab
          rw [hab] at h1; simp only [Ordering.then] at h1
          rw [habeq]
          cases hbc : cmp b c with
          | gt => rw [hbc] at h2; simp [Ordering.then] at h2
          | lt => simp [Ordering.then]
          | eq =>
            rw [hbc] at h2
            simp only [Ordering.then] at h2 ⊢
            exact ih bs cs h1 h2
        | lt =>
          cases hbc : cmp b c with
          | gt => rw [hbc] at h2; simp [Ordering.then] at h2
          | eq =>
            have hbceq : b = c := (heq b c).mp hbc
            rw [← hbceq, hab]; simp [Ordering.then]
          | lt =>
            rw [htrans a b c hab hbc]; simp [Ordering.then]

theorem cmpStr_eq_iff (a b : String) : cmpStr a b = .eq ↔ a = b := by
  unfold cmpStr
  rw [lexCmp_eq_iff cmpChar cmpChar_eq_iff]
  constructor
  · intro h; cases a; cases b; simp_all
  · intro h; rw [h]

theorem cmpStr_swap (a b : String) : (cmpStr a b).swap = cmpStr b a :=
  lexCmp_swap cmpChar cmpChar_swap _ _

theorem cmpStr_lt_trans {a b c : String} (h1 : cmpStr a b = .lt) (h2 : cmpStr b c = .lt) :
    cmpStr a c = .lt :=
  lexCmp_lt_trans cmpChar cmpChar_eq_iff (fun _ _ _ => cmpChar_lt_trans) _ _ _ h1 h2

theorem cmpPreId_eq_iff (a b : PreId) : cmpPreId a b = .eq ↔ a = b := by
  cases a <;> cases b <;> simp [cmpPreId, natCmp_eq_iff, cmpStr_eq_iff]

theorem cmpPreId_swap (a b : PreId) : (cmpPreId a b).swap = cmpPreId b a := by
  cases a <;> cases b
  · exact natCmp_swap _ _
  · rfl
  · rfl
  · exact cmpStr_swap _ _

theorem cmpPreId_lt_trans {a b c : PreId} (h1 : cmpPreId a b = .lt) (h2 : cmpPreId b c = .lt) :
    cmpPreId a c = .lt := by
  cases a <;> cases b <;> cases c <;> simp_all [cmpPreId]
  · exact natCmp_lt_trans h1 h2
  · exact cmpStr_lt_trans h1 h2

theorem cmpPreList_eq_iff (as bs : List PreId) : cmpPreList as bs = .eq ↔ as = bs :=
  lexCmp_eq_iff cmpPreId cmpPreId_eq_iff as bs

theorem cmpPreList_swap (as bs : List PreId) : (cmpPreList as bs).swap = cmpPreList bs as :=
  lexCmp_swap cmpPreId cmpPreId_swap as bs

theorem cmpPreList_lt_trans {as bs cs : List PreId} (h1 : cmpPreList as bs = .lt)
    (h2 : cmpPreList bs cs = .lt) : cmpPreList as cs = .lt :=
  lexCmp_lt_trans cmpPreId cmpPreId_eq_iff (fun _ _ _ => cmpPreId_lt_trans) as bs cs h1 h2

theorem cmpPre_eq_key (as bs : List PreId) :
    cmpPre as bs =
      cmpPreList
        (match as with | [] => [PreId.num 1] | ps => PreId.num 0 :: ps)
        (match bs with | [] => [PreId.num 1] | ps => PreId.num 0 :: ps) := by
  cases as <;> cases bs <;>
    simp [cmpPre, cmpPreList, lexCmp, cmpPreId, natCmp, Ordering.then]

theorem cmpVer_eq_key (a b : VersionInfo) :
    cmpVer a b = cmpPreList (verKey a) (verKey b) := by
  have h := cmpPre_eq_key a.prerelease b.prerelease
  unfold cmpVer verKey
  rw [h]
  show _ = lexCmp cmpPreId _ _
  rw [lexCmp_cons, lexCmp_cons, lexCmp_cons]
  rfl

theorem cmpVer_eq_iff (a b : VersionInfo) :
    cmpVer a b = .eq ↔
      a.major = b.major ∧ a.minor = b.minor ∧ a.patch = b.patch ∧
        a.prerelease = b.prerelease := by
  rw [cmpVer_eq_key, cmpPreList_eq_iff]
  unfold verKey
  constructor
  · intro h
    injection h with e1 h; injection h with e2 h; injection h with e3 h
    injection e1 with e1; injection e2 with e2; injection e3 with e3
    refine ⟨e1, e2, e3, ?_⟩
    cases ha : a.prerelease <;> cases hb : b.prerelease <;> rw [ha, hb] at h <;>
      simp_all
  · rintro ⟨e1, e2, e3, e4⟩
    rw [e1, e2, e3, e4]

theorem cmpVer_swap (a b : VersionInfo) : (cmpVer a b).swap = cmpVer b a := by
  rw [cmpVer_eq_key, cmpVer_eq_key]; exact cmpPreList_swap _ _

theorem cmpVer_lt_trans {a b c : VersionInfo} (h1 : cmpVer a b = .lt)
    (h2 : cmpVer b c = .lt) : cmpVer a c = .lt := by
  rw [cmpVer_eq_key] at h1 h2 ⊢
  exact cmpPreList_lt_trans h1 h2

theorem cmpVer_refl (a : VersionInfo) : cmpVer a a = .eq :=
  (cmpVer_eq_iff a a).mpr ⟨rfl, rfl, rfl, rfl⟩

theorem cmpVer_gt_iff_lt (a b : VersionInfo) : cmpVer a b = .gt ↔ cmpVer b a = .lt := by
  rw [← cmpVer_swap a b]
  cases cmpVer a b <;> simp [Ordering.swap]

theorem cmpVer_le_trans {a b c : VersionInfo} (h1 : cmpVer a b ≠ .gt)
    (h2 : cmpVer b c ≠ .gt) : cmpVer a c ≠ .gt := by
  cases e1 : cmpVer a b with
  | gt => exact absurd e1 h1
  | eq =>
    obtain ⟨m1, m2, m3, m4⟩ := (cmpVer_eq_iff a b).mp e1
    intro hac
    rw [cmpVer_gt_iff_lt] at hac
    apply h2
    rw [cmpVer_gt_iff_lt]
    rw [cmpVer_eq_key] at hac ⊢
    have : verKey a = verKey b := by unfold verKey; rw [m1, m2, m3, m4]
    rw [this] at hac
    exact hac
  | lt =>
    cases e2 : cmpVer b c with
    | gt => exact absurd e2 h2
    | eq =>
      obtain ⟨m1, m2, m3, m4⟩ := (cmpVer_eq_iff b c).mp e2
      intro hac
      rw [cmpVer_gt_iff_lt] at hac
      have hkey : verKey b = verKey c := by unfold verKey; rw [m1, m2, m3, m4]
      rw [cmpVer_eq_key] at hac e1
      rw [hkey] at e1
      have := cmpPreList_lt_trans hac e1
      rw [← cmpVer_eq_key, cmpVer_refl] at this
      cases this
    | lt =>
      have := cmpVer_lt_trans e1 e2
      intro hac
      rw [cmpVer_gt_iff_lt] at hac
      have h0 := cmpVer_lt_trans this hac
      rw [cmpVer_refl] at h0
      cases h0

theorem cmpVer_eq_of_le_ge {a b : VersionInfo} (h1 : cmpVer a b ≠ .gt)
    (h2 : cmpVer b a ≠ .gt) : cmpVer a b = .eq := by
  cases e : cmpVer a b with
  | eq => rfl
  | gt => exact absurd e h1
  | lt =>
    exfalso; apply h2
    rw [cmpVer_gt_iff_lt]; exact e

/-! ### Characterisation of the tag scans -/

theorem foldl_parse_skip {β : Type} (g : β → VersionInfo → β) (l : List String) (acc : β) :
    l.foldl (fun acc t => match parseTag t with | none => acc | some v => g acc v) acc
      = (l.filterMap parseTag).foldl g acc := by
  induction l generalizing acc with
  | nil => rfl
  | cons t l ih =>
    cases h : parseTag t <;>
      simp only [List.foldl_cons, List.filterMap_cons, h] <;> exact ih _

theorem get_latest_semver_eq (tags : List String) :
    get_latest_semver tags = ((parsedVersions tags).reverse).foldl gls_step none := by
  unfold get_latest_semver parsedVersions
  rw [foldl_parse_skip, List.filterMap_reverse]

theorem gls_step_some (acc : Option VersionInfo) (x : VersionInfo) :
    ∃ m, gls_step acc x = some m ∧ (m = x ∨ acc = some m) ∧ cmpVer x m ≠ .gt ∧
      (∀ u, acc = some u → cmpVer u m ≠ .gt) := by
  cases acc with
  | none =>
    refine ⟨x, rfl, Or.inl rfl, ?_, ?_⟩
    · rw [cmpVer_refl]; simp
    · intro u hu; cases hu
  | some l =>
    by_cases h : cmpVer x l = .gt
    · refine ⟨x, by simp [gls_step, h], Or.inl rfl, ?_, ?_⟩
      · rw [cmpVer_refl]; simp
      · intro u hu
        injection hu with e; subst e
        rw [cmpVer_gt_iff_lt] at h
        rw [h]; simp
    · refine ⟨l, by simp [gls_step, h], Or.inr rfl, h, ?_⟩
      intro u hu
      injection hu with e; subst e
      rw [cmpVer_refl]; simp

theorem foldl_gls_spec (L : List VersionInfo) :
    ∀ (acc : Option VersionInfo) (v : VersionInfo),
      L.foldl gls_step acc = some v →
      (v ∈ L ∨ acc = some v) ∧ (∀ w ∈ L, cmpVer w v ≠ .gt) ∧
        (∀ u, acc = some u → cmpVer u v ≠ .gt) := by
  induction L with
  | nil =>
    intro acc v h
    simp only [List.foldl_nil] at h
    refine ⟨Or.inr h, by simp, ?_⟩
    intro u hu
    rw [h] at hu
    injection hu with e; subst e
    rw [cmpVer_refl]; simp
  | cons x L ih =>
    intro acc v h
    simp only [List.foldl_cons] at h
    obtain ⟨m, hm, hor, hxm, hacc⟩ := gls_step_some acc x
    rw [hm] at h
    obtain ⟨hmem, hub, haccb⟩ := ih (some m) v h
    have hmv : cmpVer m v ≠ .gt := haccb m rfl
    refine ⟨?_, ?_, ?_⟩
    · cases hmem with
      | inl h' => exact Or.inl (List.mem_cons_of_mem _ h')
      | inr h' =>
        injection h' with e; subst e
        cases hor with
        | inl h'' => exact Or.inl (h'' ▸ List.mem_cons_self _ _)
        | inr h'' => exact Or.inr h''
    · intro w hw
      rcases List.mem_cons.mp hw with h' | h'
      · subst h'; exact cmpVer_le_trans hxm hmv
      · exact hub w h'
    · intro u hu
      exact cmpVer_le_trans (hacc u hu) hmv

theorem foldl_gls_none_iff (L : List VersionInfo) (acc : Option VersionInfo) :
    L.foldl gls_step acc = none ↔ L = [] ∧ acc = none := by
  induction L generalizing acc with
  | nil => simp
  | cons x L ih =>
    simp only [List.foldl_cons, ih]
    obtain ⟨m, hm, -⟩ := gls_step_some acc x
    simp [hm]

theorem get_latest_semver_none_iff (tags : List String) :
    get_latest_semver tags = none ↔ parsedVersions tags = [] := by
  rw [get_latest_semver_eq, foldl_gls_none_iff]
  simp

theorem get_latest_semver_spec {tags : List String} {v : VersionInfo}
    (h : get_latest_semver tags = some v) :
    v ∈ parsedVersions tags ∧ ∀ w ∈ parsedVersions tags, cmpVer w v ≠ .gt := by
  rw [get_latest_semver_eq] at h
  obtain ⟨hmem, hub, -⟩ := foldl_gls_spec _ _ _ h
  constructor
  · cases hmem with
    | inl h' => exact List.mem_reverse.mp h'
    | inr h' => cases h'
  · intro w hw
    exact hub w (List.mem_reverse.mpr hw)

theorem glp_eq (tags : List String) (base : VersionInfo) (token : String) :
    get_latest_prerelease_for_base tags base token =
      ((parsedVersions tags).reverse).foldl (glp_step base token) none := by
  unfold get_latest_prerelease_for_base parsedVersions
  rw [foldl_parse_skip, List.filterMap_reverse]

theorem candSuffix_some_spec {base : VersionInfo} {token : String} {v : VersionInfo}
    {n : Nat} (h : candSuffix base token v = some n) :
    v.major = base.major ∧ v.minor = base.minor ∧ v.patch = base.patch ∧
      v.prerelease = [PreId.str token, PreId.num n] := by
  unfold candSuffix at h
  split at h
  · rename_i hb
    split at h
    · rename_i p0 m hpre
      split at h
      · rename_i hp0
        injection h with e
        exact ⟨hb.1, hb.2.1, hb.2.2, by rw [hpre, hp0, e]⟩
      · cases h
    · cases h
  · cases h

theorem glp_step_none_of_cand {base : VersionInfo} {token : String} {x : VersionInfo}
    (h1 : x.major = base.major) (h2 : x.minor = base.minor) (h3 : x.patch = base.patch)
    {p1 : PreId} (h4 : x.prerelease = [PreId.str token, p1]) :
    glp_step base token none x = some x := by
  unfold glp_step
  rw [if_pos ⟨h1, h2, h3⟩, h4]
  simp

theorem glp_step_none_of_not_cand {base : VersionInfo} {token : String} {x : VersionInfo}
    (h : ¬ (x.major = base.major ∧ x.minor = base.minor ∧ x.patch = base.patch ∧
        ∃ p1, x.prerelease = [PreId.str token, p1])) :
    glp_step base token none x = none := by
  unfold glp_step
  split
  · rename_i hb
    split
    · rename_i p0 p1 hpre
      split
      · rename_i hp0
        exact absurd ⟨hb.1, hb.2.1, hb.2.2, p1, by rw [hpre, hp0]⟩ h
      · rfl
    · rfl
  · rfl

theorem glp_step_some_num {base : VersionInfo} {token : String} {u : VersionInfo} {k : Nat}
    (hu : u.prerelease = [PreId.str token, PreId.num k]) (x : VersionInfo) :
    glp_step base token (some u) x =
      match candSuffix base token x with
      | some m => if k < m then some x else some u
      | none => some u := by
  by_cases hb : x.major = base.major ∧ x.minor = base.minor ∧ x.patch = base.patch
  · rcases hx : x.prerelease with - | ⟨p0, - | ⟨p1, - | ⟨q, rest⟩⟩⟩
    · simp [glp_step, candSuffix, hx, if_pos hb]
    · simp [glp_step, candSuffix, hx, if_pos hb]
    · cases p1 with
      | num m =>
        by_cases hp0 : p0 = PreId.str token
        · by_cases hkm : k < m <;>
            simp [glp_step, candSuffix, hx, if_pos hb, hp0, hu, pyGt, hkm]
        · simp [glp_step, candSuffix, hx, if_pos hb, hp0]
      | str s =>
        by_cases hp0 : p0 = PreId.str token
        · simp [glp_step, candSuffix, hx, if_pos hb, hp0, hu, pyGt]
        · simp [glp_step, candSuffix, hx, if_pos hb, hp0]
    · simp [glp_step, candSuffix, hx, if_pos hb]
  · simp [glp_step, candSuffix, if_neg hb]

theorem glp_step_cases (base : VersionInfo) (token : String) (acc : Option VersionInfo)
    (x : VersionInfo) :
    glp_step base token acc x = acc ∨
      (glp_step base token acc x = some x ∧ x.major = base.major ∧ x.minor = base.minor ∧
        x.patch = base.patch ∧ ∃ p1, x.prerelease = [PreId.str token, p1]) := by
  by_cases hb : x.major = base.major ∧ x.minor = base.minor ∧ x.patch = base.patch
  · rcases hx : x.prerelease with - | ⟨p0, - | ⟨p1, - | ⟨q, rest⟩⟩⟩
    · left; simp [glp_step, hx, if_pos hb]
    · left; simp [glp_step, hx, if_pos hb]
    · by_cases hp0 : p0 = PreId.str token
      · cases acc with
        | none =>
          right
          refine ⟨?_, hb.1, hb.2.1, hb.2.2, p1, by simp [hx, hp0]⟩
          simp [glp_step, hx, if_pos hb, hp0]
        | some l =>
          rcases hl : l.prerelease with - | ⟨q0, - | ⟨q1, - | ⟨r, rest'⟩⟩⟩
          · left; simp [glp_step, hx, if_pos hb, hp0, hl]
          · left; simp [glp_step, hx, if_pos hb, hp0, hl]
          · cases hg : pyGt p1 q1 with
            | none => left; simp [glp_step, hx, if_pos hb, hp0, hl, hg]
            | some b =>
              cases b with
              | true =>
                right
                refine ⟨?_, hb.1, hb.2.1, hb.2.2, p1, by simp [hx, hp0]⟩
                simp [glp_step, hx, if_pos hb, hp0, hl, hg]
              | false => left; simp [glp_step, hx, if_pos hb, hp0, hl, hg]
          · left; simp [glp_step, hx, if_pos hb, hp0, hl]
      · left; simp [glp_step, hx, if_pos hb, hp0]
    · left; simp [glp_step, hx, if_pos hb]
  · left; simp [glp_step, if_neg hb]

theorem foldl_glp_shape (base : VersionInfo) (token : String) :
    ∀ (L : List VersionInfo) (acc : Option VersionInfo),
      (∀ u, acc = some u → u.major = base.major ∧ u.minor = base.minor ∧
        u.patch = base.patch ∧ ∃ q1, u.prerelease = [PreId.str token, q1]) →
      ∀ p, L.foldl (glp_step base token) acc = some p →
        p.major = base.major ∧ p.minor = base.minor ∧ p.patch = base.patch ∧
          ∃ q1, p.prerelease = [PreId.str token, q1] := by
  intro L
  induction L with
  | nil => intro acc hacc p hp; exact hacc p hp
  | cons x L ih =>
    intro acc hacc p hp
    simp only [List.foldl_cons] at hp
    apply ih (glp_step base token acc x) _ p hp
    intro u hu
    rcases glp_step_cases base token acc x with h | ⟨h, h1, h2, h3, h4⟩
    · exact hacc u (h ▸ hu)
    · rw [h] at hu
      injection hu with e; subst e
      exact ⟨h1, h2, h3, h4⟩

/-- The tracker's result always matches the base and carries a
two-identifier prerelease beginning with the token. -/
theorem tracker_shape {tags : List String} {base : VersionInfo} {token : String}
    {p : VersionInfo} (h : get_latest_prerelease_for_base tags base token = some p) :
    p.major = base.major ∧ p.minor = base.minor ∧ p.patch = base.patch ∧
      ∃ q1, p.prerelease = [PreId.str token, q1] := by
  rw [glp_eq] at h
  exact foldl_glp_shape base token _ none (by intro u hu; cases hu) p h

theorem foldl_glp_aux (base : VersionInfo) (token : String) :
    ∀ (L : List VersionInfo) (u : VersionInfo) (k : Nat),
      u.major = base.major → u.minor = base.minor → u.patch = base.patch →
      u.prerelease = [PreId.str token, PreId.num k] →
      ∃ p n, L.foldl (glp_step base token) (some u) = some p ∧
        p.major = base.major ∧ p.minor = base.minor ∧ p.patch = base.patch ∧
        p.prerelease = [PreId.str token, PreId.num n] ∧
        k ≤ n ∧ (n = k ∨ n ∈ L.filterMap (candSuffix base token)) ∧
        ∀ m ∈ L.filterMap (candSuffix base token), m ≤ n := by
  intro L
  induction L with
  | nil =>
    intro u k h1 h2 h3 h4
    exact ⟨u, k, rfl, h1, h2, h3, h4, Nat.le_refl k, Or.inl rfl, by simp⟩
  | cons x L ih =>
    intro u k h1 h2 h3 h4
    simp only [List.foldl_cons]
    rw [glp_step_some_num h4 x]
    cases hc : candSuffix base token x with
    | none =>
      obtain ⟨p, n, hfold, g1, g2, g3, g4, g5, g6, g7⟩ := ih u k h1 h2 h3 h4
      refine ⟨p, n, hfold, g1, g2, g3, g4, g5, ?_, ?_⟩
      · simp only [List.filterMap_cons, hc]
        exact g6
      · simp only [List.filterMap_cons, hc]
        exact g7
    | some m =>
      obtain ⟨c1, c2, c3, c4⟩ := candSuffix_some_spec hc
      by_cases hkm : k < m
      · simp only [if_pos hkm]
        obtain ⟨p, n, hfold, g1, g2, g3, g4, g5, g6, g7⟩ := ih x m c1 c2 c3 c4
        refine ⟨p, n, hfold, g1, g2, g3, g4, Nat.le_trans (Nat.le_of_lt hkm) g5, ?_, ?_⟩
        · right
          simp only [List.filterMap_cons, hc]
          rcases g6 with h | h
          · exact h ▸ List.mem_cons_self _ _
          · exact List.mem_cons_of_mem _ h
        · intro m' hm'
          simp only [List.filterMap_cons, hc] at hm'
          rcases List.mem_cons.mp hm' with h | h
          · exact h ▸ g5
          · exact g7 m' h
      · simp only [if_neg hkm]
        obtain ⟨p, n, hfold, g1, g2, g3, g4, g5, g6, g7⟩ := ih u k h1 h2 h3 h4
        refine ⟨p, n, hfold, g1, g2, g3, g4, g5, ?_, ?_⟩
        · rcases g6 with h | h
          · exact Or.inl h
          · right
            simp only [List.filterMap_cons, hc]
            exact List.mem_cons_of_mem _ h
        · intro m' hm'
          simp only [List.filterMap_cons, hc] at hm'
          rcases List.mem_cons.mp hm' with h | h
          · subst h
            exact Nat.le_trans (Nat.le_of_not_lt hkm) g5
          · exact g7 m' h

theorem foldl_glp_none (base : VersionInfo) (token : String) :
    ∀ L : List VersionInfo, (∀ v ∈ L, PreShapeOK v = true) →
      (L.foldl (glp_step base token) none = none ↔
        L.filterMap (candSuffix base token) = []) ∧
      (∀ p, L.foldl (glp_step base token) none = some p →
        p.major = base.major ∧ p.minor = base.minor ∧ p.patch = base.patch ∧
        ∃ n, p.prerelease = [PreId.str token, PreId.num n] ∧
          n ∈ L.filterMap (candSuffix base token) ∧
          ∀ m ∈ L.filterMap (candSuffix base token), m ≤ n) := by
  intro L
  induction L with
  | nil => intro _; simp
  | cons x L ih =>
    intro hw
    have hwx : PreShapeOK x = true := hw x (List.mem_cons_self _ _)
    have hwL : ∀ v ∈ L, PreShapeOK v = true :=
      fun v hv => hw v (List.mem_cons_of_mem _ hv)
    simp only [List.foldl_cons]
    cases hc : candSuffix base token x with
    | some m =>
      obtain ⟨c1, c2, c3, c4⟩ := candSuffix_some_spec hc
      rw [glp_step_none_of_cand c1 c2 c3 c4]
      obtain ⟨p, n, hfold, g1, g2, g3, g4, g5, g6, g7⟩ :=
        foldl_glp_aux base token L x m c1 c2 c3 c4
      rw [hfold]
      constructor
      · simp [List.filterMap_cons, hc]
      · intro p' hp'
        injection hp' with e; subst e
        refine ⟨g1, g2, g3, n, g4, ?_, ?_⟩
        · simp only [List.filterMap_cons, hc]
          rcases g6 with h | h
          · exact h ▸ List.mem_cons_self _ _
          · exact List.mem_cons_of_mem _ h
        · intro m' hm'
          simp only [List.filterMap_cons, hc] at hm'
          rcases List.mem_cons.mp hm' with h | h
          · exact h ▸ g5
          · exact g7 m' h
    | none =>
      have hnc : ¬ (x.major = base.major ∧ x.minor = base.minor ∧ x.patch = base.patch ∧
          ∃ p1, x.prerelease = [PreId.str token, p1]) := by
        rintro ⟨e1, e2, e3, p1, e4⟩
        cases p1 with
        | num n' =>
          have he : candSuffix base token x = some n' := by
            unfold candSuffix
            rw [if_pos ⟨e1, e2, e3⟩, e4]
            simp
          rw [he] at hc; cases hc
        | str s =>
          unfold PreShapeOK at hwx
          rw [e4] at hwx
          cases hwx
      rw [glp_step_none_of_not_cand hnc]
      have hih := ih hwL
      simp only [List.filterMap_cons, hc]
      exact hih

/-- Characterisation of the tracker on tag lists whose series-shaped
prereleases are all numeric: it is empty exactly when the series is, and
otherwise returns a member of the series carrying its greatest suffix. -/
theorem tracker_spec {tags : List String} (base : VersionInfo) (token : String)
    (hw : ∀ v ∈ parsedVersions tags, PreShapeOK v = true) :
    (get_latest_prerelease_for_base tags base token = none ↔
      candSuffixes tags base token = []) ∧
    (∀ p, get_latest_prerelease_for_base tags base token = some p →
      p.major = base.major ∧ p.minor = base.minor ∧ p.patch = base.patch ∧
      ∃ n, p.prerelease = [PreId.str token, PreId.num n] ∧
        n ∈ candSuffixes tags base token ∧
        ∀ m ∈ candSuffixes tags base token, m ≤ n) := by
  rw [glp_eq]
  have hw' : ∀ v ∈ (parsedVersions tags).reverse, PreShapeOK v = true :=
    fun v hv => hw v (List.mem_reverse.mp hv)
  obtain ⟨hnone, hsome⟩ := foldl_glp_none base token _ hw'
  have hrev : ((parsedVersions tags).reverse).filterMap (candSuffix base token)
      = (candSuffixes tags base token).reverse := by
    unfold candSuffixes
    rw [List.filterMap_reverse]
  constructor
  · rw [hnone, hrev]
    simp
  · intro p hp
    obtain ⟨g1, g2, g3, n, g4, g5, g6⟩ := hsome p hp
    rw [hrev] at g5 g6
    refine ⟨g1, g2, g3, n, g4, List.mem_reverse.mp g5, ?_⟩
    intro m hm
    exact g6 m (List.mem_reverse.mpr hm)

/-! ### Resolver-level helpers -/

theorem main_resolve_pre_branch {tags : List String} {k : BumpType} {token : String}
    {cv : VersionInfo} (htok : preToken k = some token)
    (hgls : get_latest_semver tags = some cv) :
    main_resolve k tags = some (prereleaseBumpResult tags cv token) := by
  cases k with
  | alpha =>
    injection htok with e; subst e
    unfold main_resolve; rw [hgls]
  | beta =>
    injection htok with e; subst e
    unfold main_resolve; rw [hgls]
  | rc =>
    injection htok with e; subst e
    unfold main_resolve; rw [hgls]
  | promote_to_final => cases htok
  | patch => cases htok
  | minor => cases htok
  | major => cases htok

theorem bump_prerelease_pair (p : VersionInfo) (token : String) (n : Nat)
    (hpre : p.prerelease = [PreId.str token, PreId.num n]) :
    bump_prerelease p =
      ⟨p.major, p.minor, p.patch, [PreId.str token, PreId.num (n + 1)], []⟩ := by
  unfold bump_prerelease
  rw [hpre]
  rfl

theorem prereleaseBumpResult_eq (tags : List String) (cv : VersionInfo) (token : String) :
    prereleaseBumpResult tags cv token =
      ⟨vtag (verStr
        (match get_latest_prerelease_for_base tags (finalize_version cv) token with
         | some p => bump_prerelease p
         | none =>
           { finalize_version cv with prerelease := [PreId.str token, PreId.num 1] })),
       true⟩ := rfl

/-- Both arms of the alpha/beta/rc branch, stated against the tracker. -/
theorem prereleaseBumpResult_spec (tags : List String) (cv : VersionInfo) (token : String) :
    (∀ p n, get_latest_prerelease_for_base tags (finalize_version cv) token = some p →
      p.prerelease = [PreId.str token, PreId.num n] →
      prereleaseBumpResult tags cv token =
        ⟨vtag (verStr ⟨cv.major, cv.minor, cv.patch,
          [PreId.str token, PreId.num (n + 1)], []⟩), true⟩) ∧
    (get_latest_prerelease_for_base tags (finalize_version cv) token = none →
      prereleaseBumpResult tags cv token =
        ⟨vtag (verStr ⟨cv.major, cv.minor, cv.patch,
          [PreId.str token, PreId.num 1], []⟩), true⟩) := by
  constructor
  · intro p n htr hpre
    obtain ⟨g1, g2, g3, -⟩ := tracker_shape htr
    have hstep : prereleaseBumpResult tags cv token =
        ⟨vtag (verStr (bump_prerelease p)), true⟩ := by
      rw [prereleaseBumpResult_eq, htr]
    rw [hstep, bump_prerelease_pair p token n hpre]
    have e1 : p.major = cv.major := g1
    have e2 : p.minor = cv.minor := g2
    have e3 : p.patch = cv.patch := g3
    rw [e1, e2, e3]
  · intro htr
    have hstep : prereleaseBumpResult tags cv token =
        ⟨vtag (verStr
          { finalize_version cv with prerelease := [PreId.str token, PreId.num 1] }),
         true⟩ := by
      rw [prereleaseBumpResult_eq, htr]
    rw [hstep]
    rfl

theorem startsWithV_vtag (s : String) : startsWithV (vtag s) = true := by
  unfold vtag
  by_cases h : startsWithV s
  · simp [h]
  · simp only [h]
    show startsWithV ("v" ++ s) = true
    unfold startsWithV
    have : ("v" ++ s).data = 'v' :: s.data := by simp [String.data_append]
    rw [this]
    simp

/-! ### The claims -/

/-- C2: for a tag list in which no tag parses, an `alpha` request yields
`v0.2.0-alpha.1` with `is_prerelease = true`, and every other request kind
is a fatal error producing no result. -/
theorem C2_bootstrap (tags : List String) (h : parsedVersions tags = []) :
    main_resolve BumpType.alpha tags = some ⟨"v0.2.0-alpha.1", true⟩ ∧
    ∀ k : BumpType, k ≠ BumpType.alpha → main_resolve k tags = none := by
  have hg : get_latest_semver tags = none := (get_latest_semver_none_iff tags).mpr h
  constructor
  · unfold main_resolve
    rw [hg]
    rfl
  · intro k hk
    unfold main_resolve
    rw [hg]
    simp [hk]

/-- Witness for C2 at the empty tag list. -/
theorem C2_bootstrap_witness :
    main_resolve BumpType.alpha [] = some ⟨"v0.2.0-alpha.1", true⟩ ∧
      main_resolve BumpType.patch [] = none :=
  ⟨(C2_bootstrap [] rfl).1, (C2_bootstrap [] rfl).2 BumpType.patch (by decide)⟩

/-- C3: `promote_to_final` is a fatal error when the overall latest
version is already final, and otherwise produces the finalized latest
(same `major.minor.patch`, prerelease dropped) as a non-prerelease. -/
theorem C3_promote (tags : List String) (v : VersionInfo)
    (h : get_latest_semver tags = some v) :
    (v.prerelease = [] → main_resolve BumpType.promote_to_final tags = none) ∧
    (v.prerelease ≠ [] →
      main_resolve BumpType.promote_to_final tags =
        some ⟨vtag (verStr (finalize_version v)), false⟩ ∧
      finalize_version v = ⟨v.major, v.minor, v.patch, [], []⟩) := by
  constructor
  · intro he
    unfold main_resolve
    rw [h]
    simp [he]
  · intro hne
    refine ⟨?_, rfl⟩
    unfold main_resolve
    rw [h]
    simp [hne]

/-- Witness for C3: a prerelease latest is promoted, a final latest is fatal. -/
theorem C3_promote_witness :
    main_resolve BumpType.promote_to_final ["v2.0.0-rc.1"] = some ⟨"v2.0.0", false⟩ ∧
    main_resolve BumpType.promote_to_final ["v1.0.0"] = none := by
  constructor
  · have h := (C3_promote ["v2.0.0-rc.1"] ⟨2, 0, 0, [PreId.str "rc", PreId.num 1], []⟩
      (by decide)).2 (by decide)
    exact h.1.trans (by decide)
  · exact (C3_promote ["v1.0.0"] ⟨1, 0, 0, [], []⟩ (by decide)).1 rfl

/-- C5 counterexample: on `[v1.2.0, v1.2.0-alpha.1]` a `patch` request
produces `v1.2.1`, not the claimed `v1.3.0`. -/
theorem C5_patch_scenario_counterexample :
    main_resolve BumpType.patch ["v1.2.0", "v1.2.0-alpha.1"] = some ⟨"v1.2.1", false⟩ ∧
    main_resolve BumpType.patch ["v1.2.0", "v1.2.0-alpha.1"] ≠ some ⟨"v1.3.0", false⟩ := by
  decide

/-- C5 (amended): tags `[v1.2.0, v1.2.0-alpha.1]` with a `patch` request
resolve to `v1.2.1` with `is_prerelease = false`. -/
theorem C5_patch_scenario :
    main_resolve BumpType.patch ["v1.2.0", "v1.2.0-alpha.1"] = some ⟨"v1.2.1", false⟩ := by
  decide

/-- C10: every successful resolution, bootstrap or established, emits a
tag beginning with `v`. -/
theorem C10_v_prefix (bump : BumpType) (tags : List String) (r : ResolutionResult)
    (h : main_resolve bump tags = some r) : startsWithV r.next_tag = true := by
  unfold main_resolve at h
  cases hg : get_latest_semver tags with
  | none =>
    rw [hg] at h
    by_cases hb : bump = BumpType.alpha
    · rw [if_pos hb] at h
      injection h with e; subst e
      simp [startsWithV_vtag]
    · rw [if_neg hb] at h
      cases h
  | some cv =>
    rw [hg] at h
    cases bump with
    | alpha =>
      injection h with e; subst e
      rw [prereleaseBumpResult_eq]
      simp [startsWithV_vtag]
    | beta =>
      injection h with e; subst e
      rw [prereleaseBumpResult_eq]
      simp [startsWithV_vtag]
    | rc =>
      injection h with e; subst e
      rw [prereleaseBumpResult_eq]
      simp [startsWithV_vtag]
    | promote_to_final =>
      have h' : (if cv.prerelease = [] then (none : Option ResolutionResult)
          else some ⟨vtag (verStr (finalize_version cv)), false⟩) = some r := h
      by_cases he : cv.prerelease = []
      · rw [if_pos he] at h'; cases h'
      · rw [if_neg he] at h'
        injection h' with e; subst e
        simp [startsWithV_vtag]
    | patch =>
      injection h with e; subst e
      simp [startsWithV_vtag]
    | minor =>
      injection h with e; subst e
      simp [startsWithV_vtag]
    | major =>
      injection h with e; subst e
      simp [startsWithV_vtag]

/-- Witness for C10 at the bootstrap resolution. -/
theorem C10_v_prefix_witness :
    startsWithV (ResolutionResult.mk "v0.2.0-alpha.1" true).next_tag = true :=
  C10_v_prefix BumpType.alpha [] ⟨"v0.2.0-alpha.1", true⟩ (by decide)

/-- C4: `get_latest_semver` is `none` exactly when no tag parses, and
otherwise returns a member of the parsed subset that no parsed version
exceeds under the comparator. -/
theorem C4_latest_overall (tags : List String) :
    (get_latest_semver tags = none ↔ parsedVersions tags = []) ∧
    ∀ v, get_latest_semver tags = some v →
      v ∈ parsedVersions tags ∧ ∀ w ∈ parsedVersions tags, cmpVer w v ≠ .gt :=
  ⟨get_latest_semver_none_iff tags, fun _ h => get_latest_semver_spec h⟩

/-- Witness for C4 on a two-tag list. -/
theorem C4_latest_overall_witness :
    get_latest_semver ["v1.0.0", "v2.0.0"] = some ⟨2, 0, 0, [], []⟩ ∧
    ((⟨2, 0, 0, [], []⟩ : VersionInfo) ∈ parsedVersions ["v1.0.0", "v2.0.0"] ∧
      ∀ w ∈ parsedVersions ["v1.0.0", "v2.0.0"], cmpVer w ⟨2, 0, 0, [], []⟩ ≠ .gt) :=
  ⟨by decide,
    (C4_latest_overall ["v1.0.0", "v2.0.0"]).2 ⟨2, 0, 0, [], []⟩ (by decide)⟩

/-- C7: for `patch`, `minor` and `major` requests on an established tag
list, the resolved version is strictly greater than the finalized overall
latest under the comparator. -/
theorem C7_monotonic (tags : List String) (v : VersionInfo)
    (hgls : get_latest_semver tags = some v) :
    (main_resolve BumpType.patch tags =
        some ⟨vtag (verStr (bump_patch (finalize_version v))), false⟩ ∧
      cmpVer (finalize_version v) (bump_patch (finalize_version v)) = .lt) ∧
    (main_resolve BumpType.minor tags =
        some ⟨vtag (verStr (bump_minor (finalize_version v))), false⟩ ∧
      cmpVer (finalize_version v) (bump_minor (finalize_version v)) = .lt) ∧
    (main_resolve BumpType.major tags =
        some ⟨vtag (verStr (bump_major (finalize_version v))), false⟩ ∧
      cmpVer (finalize_version v) (bump_major (finalize_version v)) = .lt) := by
  refine ⟨⟨?_, ?_⟩, ⟨?_, ?_⟩, ⟨?_, ?_⟩⟩
  · unfold main_resolve; rw [hgls]
  · show cmpVer ⟨v.major, v.minor, v.patch, [], []⟩
      ⟨v.major, v.minor, v.patch + 1, [], []⟩ = .lt
    have h1 : natCmp v.major v.major = .eq := (natCmp_eq_iff _ _).mpr rfl
    have h2 : natCmp v.minor v.minor = .eq := (natCmp_eq_iff _ _).mpr rfl
    have h3 : natCmp v.patch (v.patch + 1) = .lt :=
      (natCmp_lt_iff _ _).mpr (Nat.lt_succ_self _)
    simp [cmpVer, h1, h2, h3, Ordering.then, cmpPre]
  · unfold main_resolve; rw [hgls]
  · show cmpVer ⟨v.major, v.minor, v.patch, [], []⟩
      ⟨v.major, v.minor + 1, 0, [], []⟩ = .lt
    have h1 : natCmp v.major v.major = .eq := (natCmp_eq_iff _ _).mpr rfl
    have h2 : natCmp v.minor (v.minor + 1) = .lt :=
      (natCmp_lt_iff _ _).mpr (Nat.lt_succ_self _)
    simp [cmpVer, h1, h2, Ordering.then]
  · unfold main_resolve; rw [hgls]
  · show cmpVer ⟨v.major, v.minor, v.patch, [], []⟩
      ⟨v.major + 1, 0, 0, [], []⟩ = .lt
    have h1 : natCmp v.major (v.major + 1) = .lt :=
      (natCmp_lt_iff _ _).mpr (Nat.lt_succ_self _)
    simp [cmpVer, h1, Ordering.then]

/-- Witness for C7: a `minor` bump on `[v1.2.3-rc.2]`. -/
theorem C7_monotonic_witness :
    main_resolve BumpType.minor ["v1.2.3-rc.2"] = some ⟨"v1.3.0", false⟩ ∧
      cmpVer (finalize_version ⟨1, 2, 3, [PreId.str "rc", PreId.num 2], []⟩)
        (bump_minor (finalize_version ⟨1, 2, 3, [PreId.str "rc", PreId.num 2], []⟩)) =
          Ordering.lt := by
  have h := (C7_monotonic ["v1.2.3-rc.2"]
    ⟨1, 2, 3, [PreId.str "rc", PreId.num 2], []⟩ (by decide)).2.1
  exact ⟨h.1.trans (by decide), h.2⟩

/-- C1 counterexample: with the sole tag `v1.0.0-alpha.foo` the `(1.0.0,
alpha)` series has no member with a numeric suffix, so the claim requires
`v1.0.0-alpha.1`; the script instead re-emits `v1.0.0-alpha.foo`. -/
theorem C1_series_counterexample :
    main_resolve BumpType.alpha ["v1.0.0-alpha.foo"] =
      some ⟨"v1.0.0-alpha.foo", true⟩ ∧
    main_resolve BumpType.alpha ["v1.0.0-alpha.foo"] ≠
      some ⟨"v1.0.0-alpha.1", true⟩ := by
  decide

/-- C1 (amended): on an established tag list, a prerelease request anchors
to the finalized overall latest; when the series scan returns an element
with numeric suffix `n` the result is that base with `(token, n+1)`, and
when it returns nothing the result is the base with `(token, 1)`; the
prerelease flag is set in both cases. -/
theorem C1_series_rule (tags : List String) (k : BumpType) (token : String)
    (latest : VersionInfo) (hgls : get_latest_semver tags = some latest)
    (htok : preToken k = some token) :
    (∀ p n, get_latest_prerelease_for_base tags (finalize_version latest) token = some p →
      p.prerelease = [PreId.str token, PreId.num n] →
      main_resolve k tags =
        some ⟨vtag (verStr ⟨latest.major, latest.minor, latest.patch,
          [PreId.str token, PreId.num (n + 1)], []⟩), true⟩) ∧
    (get_latest_prerelease_for_base tags (finalize_version latest) token = none →
      main_resolve k tags =
        some ⟨vtag (verStr ⟨latest.major, latest.minor, latest.patch,
          [PreId.str token, PreId.num 1], []⟩), true⟩) := by
  obtain ⟨hsome, hnone⟩ := prereleaseBumpResult_spec tags latest token
  constructor
  · intro p n htr hpre
    rw [main_resolve_pre_branch htok hgls, hsome p n htr hpre]
  · intro htr
    rw [main_resolve_pre_branch htok hgls, hnone htr]

/-- Witness for C1: continuing an alpha series and starting a beta series. -/
theorem C1_series_rule_witness :
    main_resolve BumpType.alpha ["v0.5.0-alpha.1", "v0.5.0-alpha.2"] =
      some ⟨"v0.5.0-alpha.3", true⟩ ∧
    main_resolve BumpType.beta ["v0.5.0"] = some ⟨"v0.5.0-beta.1", true⟩ := by
  constructor
  · have h := (C1_series_rule ["v0.5.0-alpha.1", "v0.5.0-alpha.2"] BumpType.alpha "alpha"
      ⟨0, 5, 0, [PreId.str "alpha", PreId.num 2], []⟩ (by decide) rfl).1
      ⟨0, 5, 0, [PreId.str "alpha", PreId.num 2], []⟩ 2 (by decide) (by decide)
    exact h.trans (by decide)
  · have h := (C1_series_rule ["v0.5.0"] BumpType.beta "beta"
      ⟨0, 5, 0, [], []⟩ (by decide) rfl).2 (by decide)
    exact h.trans (by decide)

/-- C6 counterexample: with tags `[v1.0.0-beta.1, v1.0.0-beta.foo]` the
latest numeric member of the beta series is `beta.1`, so the claim requires
`v1.0.0-beta.2`; the scan instead picks up `beta.foo` (scanned first, it
blocks the numeric comparison) and re-emits it. -/
theorem C6_cross_series_counterexample :
    main_resolve BumpType.beta ["v1.0.0-beta.1", "v1.0.0-beta.foo"] =
      some ⟨"v1.0.0-beta.foo", true⟩ ∧
    main_resolve BumpType.beta ["v1.0.0-beta.1", "v1.0.0-beta.foo"] ≠
      some ⟨"v1.0.0-beta.2", true⟩ := by
  decide

/-- C6 (amended): whenever the beta-series scan returns an element with
numeric suffix 1, a `beta` request yields the base with `(beta, 2)` — with
no assumption on tags of other series (alpha tags for the same base may or
may not exist, and may be the overall latest). -/
theorem C6_cross_series (tags : List String) (latest p : VersionInfo)
    (hgls : get_latest_semver tags = some latest)
    (htr : get_latest_prerelease_for_base tags (finalize_version latest) "beta" = some p)
    (hpre : p.prerelease = [PreId.str "beta", PreId.num 1]) :
    main_resolve BumpType.beta tags =
      some ⟨vtag (verStr ⟨latest.major, latest.minor, latest.patch,
        [PreId.str "beta", PreId.num 2], []⟩), true⟩ := by
  rw [@main_resolve_pre_branch tags BumpType.beta "beta" latest rfl hgls,
    (prereleaseBumpResult_spec tags latest "beta").1 p 1 htr hpre]

/-- Witness for C6: a same-base `alpha.5` exists; the beta series still
continues from `beta.1` to `beta.2`. -/
theorem C6_cross_series_witness :
    main_resolve BumpType.beta ["v1.0.0-alpha.5", "v1.0.0-beta.1"] =
      some ⟨"v1.0.0-beta.2", true⟩ := by
  have h := C6_cross_series ["v1.0.0-alpha.5", "v1.0.0-beta.1"]
    ⟨1, 0, 0, [PreId.str "beta", PreId.num 1], []⟩
    ⟨1, 0, 0, [PreId.str "beta", PreId.num 1], []⟩
    (by decide) (by decide) rfl
  exact h.trans (by decide)

theorem gls_congr {t1 t2 : List String} (h : parsedVersions t1 = parsedVersions t2) :
    get_latest_semver t1 = get_latest_semver t2 := by
  rw [get_latest_semver_eq, get_latest_semver_eq, h]

theorem glp_congr {t1 t2 : List String} (base : VersionInfo) (token : String)
    (h : parsedVersions t1 = parsedVersions t2) :
    get_latest_prerelease_for_base t1 base token =
      get_latest_prerelease_for_base t2 base token := by
  rw [glp_eq, glp_eq, h]

theorem main_resolve_gls_none {tags : List String} {bump : BumpType}
    (h : get_latest_semver tags = none) :
    main_resolve bump tags =
      if bump = BumpType.alpha then some ⟨vtag "0.2.0-alpha.1", true⟩ else none := by
  unfold main_resolve; rw [h]

theorem main_resolve_promote {tags : List String} {cv : VersionInfo}
    (h : get_latest_semver tags = some cv) :
    main_resolve BumpType.promote_to_final tags =
      if cv.prerelease = [] then none
      else some ⟨vtag (verStr (finalize_version cv)), false⟩ := by
  unfold main_resolve; rw [h]

theorem main_resolve_patch {tags : List String} {cv : VersionInfo}
    (h : get_latest_semver tags = some cv) :
    main_resolve BumpType.patch tags =
      some ⟨vtag (verStr (bump_patch (finalize_version cv))), false⟩ := by
  unfold main_resolve; rw [h]

theorem main_resolve_minor {tags : List String} {cv : VersionInfo}
    (h : get_latest_semver tags = some cv) :
    main_resolve BumpType.minor tags =
      some ⟨vtag (verStr (bump_minor (finalize_version cv))), false⟩ := by
  unfold main_resolve; rw [h]

theorem main_resolve_major {tags : List String} {cv : VersionInfo}
    (h : get_latest_semver tags = some cv) :
    main_resolve BumpType.major tags =
      some ⟨vtag (verStr (bump_major (finalize_version cv))), false⟩ := by
  unfold main_resolve; rw [h]

theorem main_resolve_congr (bump : BumpType) {t1 t2 : List String}
    (h : parsedVersions t1 = parsedVersions t2) :
    main_resolve bump t1 = main_resolve bump t2 := by
  cases hg2 : get_latest_semver t2 with
  | none =>
    have hg1 : get_latest_semver t1 = none := by rw [gls_congr h, hg2]
    rw [main_resolve_gls_none hg1, main_resolve_gls_none hg2]
  | some cv =>
    have hg1 : get_latest_semver t1 = some cv := by rw [gls_congr h, hg2]
    cases bump with
    | alpha =>
      rw [@main_resolve_pre_branch t1 BumpType.alpha "alpha" cv rfl hg1,
        @main_resolve_pre_branch t2 BumpType.alpha "alpha" cv rfl hg2,
        prereleaseBumpResult_eq, prereleaseBumpResult_eq, glp_congr _ _ h]
    | beta =>
      rw [@main_resolve_pre_branch t1 BumpType.beta "beta" cv rfl hg1,
        @main_resolve_pre_branch t2 BumpType.beta "beta" cv rfl hg2,
        prereleaseBumpResult_eq, prereleaseBumpResult_eq, glp_congr _ _ h]
    | rc =>
      rw [@main_resolve_pre_branch t1 BumpType.rc "rc" cv rfl hg1,
        @main_resolve_pre_branch t2 BumpType.rc "rc" cv rfl hg2,
        prereleaseBumpResult_eq, prereleaseBumpResult_eq, glp_congr _ _ h]
    | promote_to_final =>
      rw [main_resolve_promote hg1, main_resolve_promote hg2]
    | patch => rw [main_resolve_patch hg1, main_resolve_patch hg2]
    | minor => rw [main_resolve_minor hg1, main_resolve_minor hg2]
    | major => rw [main_resolve_major hg1, main_resolve_major hg2]

theorem get_tags_filter_good (repoTags : List String) :
    get_tags (repoTags.filter (fun t => startsWithV t && (parseTag t).isSome)) =
      repoTags.filter (fun t => startsWithV t && (parseTag t).isSome) := by
  unfold get_tags
  induction repoTags with
  | nil => rfl
  | cons t l ih =>
    cases h1 : startsWithV t <;> cases h2 : parseTag t <;>
      simp [List.filter_cons, h1, h2, ih]

theorem parsedVersions_get_tags_good (repoTags : List String) :
    parsedVersions (repoTags.filter (fun t => startsWithV t && (parseTag t).isSome)) =
      parsedVersions (get_tags repoTags) := by
  unfold get_tags parsedVersions
  induction repoTags with
  | nil => rfl
  | cons t l ih =>
    cases h1 : startsWithV t <;> cases h2 : parseTag t <;>
      simp [List.filter_cons, h1, h2, List.filterMap_cons, Option.isSome] <;>
      exact ih

/-- C8: a repository tag influences resolution only when it is `v`
followed by valid semver — removing every other tag string changes no
resolution result, so a malformed tag never aborts or alters a run. -/
theorem C8_malformed_ignored (bump : BumpType) (repoTags : List String) :
    resolve_pipeline bump repoTags =
      resolve_pipeline bump
        (repoTags.filter (fun t => startsWithV t && (parseTag t).isSome)) := by
  unfold resolve_pipeline
  rw [get_tags_filter_good]
  exact (main_resolve_congr bump (parsedVersions_get_tags_good repoTags)).symm

theorem prereleaseBumpResult_cases (tags : List String) (cv : VersionInfo) (token : String) :
    (get_latest_prerelease_for_base tags (finalize_version cv) token = none ∧
      prereleaseBumpResult tags cv token =
        ⟨vtag (verStr { finalize_version cv with
          prerelease := [PreId.str token, PreId.num 1] }), true⟩) ∨
    ∃ p, get_latest_prerelease_for_base tags (finalize_version cv) token = some p ∧
      prereleaseBumpResult tags cv token =
        ⟨vtag (verStr (bump_prerelease p)), true⟩ := by
  cases ht : get_latest_prerelease_for_base tags (finalize_version cv) token with
  | none =>
    left
    exact ⟨rfl, by rw [prereleaseBumpResult_eq, ht]⟩
  | some p =>
    right
    exact ⟨p, rfl, by rw [prereleaseBumpResult_eq, ht]⟩

theorem prereleaseBumpResult_perm {tags tags' : List String} {cv cv' : VersionInfo}
    (hpv : (parsedVersions tags).Perm (parsedVersions tags'))
    (hw : ∀ v ∈ parsedVersions tags, PreShapeOK v = true)
    (hw' : ∀ v ∈ parsedVersions tags', PreShapeOK v = true)
    (hfin : finalize_version cv = finalize_version cv') (token : String) :
    prereleaseBumpResult tags cv token = prereleaseBumpResult tags' cv' token := by
  have hS : (candSuffixes tags (finalize_version cv) token).Perm
      (candSuffixes tags' (finalize_version cv) token) := hpv.filterMap _
  obtain ⟨hn, hs⟩ := @tracker_spec tags (finalize_version cv) token hw
  obtain ⟨hn', hs'⟩ := @tracker_spec tags' (finalize_version cv) token hw'
  rcases prereleaseBumpResult_cases tags cv token with ⟨ht, he⟩ | ⟨p, ht, he⟩ <;>
    rcases prereleaseBumpResult_cases tags' cv' token with ⟨ht', he'⟩ | ⟨p', ht', he'⟩
  · rw [he, he', hfin]
  · rw [← hfin] at ht'
    obtain ⟨g1', g2', g3', n', g4', g5', g6'⟩ := hs' p' ht'
    have hmem : n' ∈ candSuffixes tags (finalize_version cv) token := hS.mem_iff.mpr g5'
    rw [hn.mp ht] at hmem
    cases hmem
  · rw [← hfin] at ht'
    obtain ⟨g1, g2, g3, n, g4, g5, g6⟩ := hs p ht
    have hmem : n ∈ candSuffixes tags' (finalize_version cv) token := hS.mem_iff.mp g5
    rw [hn'.mp ht'] at hmem
    cases hmem
  · rw [← hfin] at ht'
    obtain ⟨g1, g2, g3, n, g4, g5, g6⟩ := hs p ht
    obtain ⟨g1', g2', g3', n', g4', g5', g6'⟩ := hs' p' ht'
    have hnn : n = n' :=
      Nat.le_antisymm (g6' n (hS.mem_iff.mp g5)) (g6 n' (hS.mem_iff.mpr g5'))
    subst hnn
    rw [he, he', bump_prerelease_pair p token n g4, bump_prerelease_pair p' token n g4',
      g1, g2, g3, g1', g2', g3']

/-- C9 counterexample: the two orders of `[v1.0.0-alpha.1,
v1.0.0-alpha.foo]` are permutations of each other yet resolve an `alpha`
request differently (`v1.0.0-alpha.foo` versus `v1.0.0-alpha.2`), because
the scan's first-seen candidate decides whether the non-numeric suffix
blocks the numeric one. -/
theorem C9_perm_counterexample :
    List.Perm ["v1.0.0-alpha.1", "v1.0.0-alpha.foo"]
      ["v1.0.0-alpha.foo", "v1.0.0-alpha.1"] ∧
    main_resolve BumpType.alpha ["v1.0.0-alpha.1", "v1.0.0-alpha.foo"] ≠
      main_resolve BumpType.alpha ["v1.0.0-alpha.foo", "v1.0.0-alpha.1"] :=
  ⟨List.Perm.swap "v1.0.0-alpha.foo" "v1.0.0-alpha.1" [], by decide⟩

/-- C9 (amended): on tag lists whose two-identifier prereleases all carry
numeric suffixes, the resolution result is invariant under permutation of
the tag list, for every bump request. -/
theorem C9_perm_invariant (bump : BumpType) (tags tags' : List String)
    (hperm : tags.Perm tags')
    (hw : ∀ v ∈ parsedVersions tags, PreShapeOK v = true) :
    main_resolve bump tags = main_resolve bump tags' := by
  have hpv : (parsedVersions tags).Perm (parsedVersions tags') := hperm.filterMap _
  have hw' : ∀ v ∈ parsedVersions tags', PreShapeOK v = true :=
    fun v hv => hw v (hpv.mem_iff.mpr hv)
  cases hg : get_latest_semver tags with
  | none =>
    have h0 : parsedVersions tags = [] := (get_latest_semver_none_iff tags).mp hg
    have h2 := hpv.symm
    rw [h0] at h2
    have h0' : parsedVersions tags' = [] := List.perm_nil.mp h2
    rw [main_resolve_gls_none hg,
      main_resolve_gls_none ((get_latest_semver_none_iff tags').mpr h0')]
  | some v =>
    cases hg' : get_latest_semver tags' with
    | none =>
      exfalso
      have h0' : parsedVersions tags' = [] := (get_latest_semver_none_iff tags').mp hg'
      have h2 := hpv
      rw [h0'] at h2
      rw [(get_latest_semver_none_iff tags).mpr (List.perm_nil.mp h2)] at hg
      cases hg
    | some v' =>
      obtain ⟨hm, hub⟩ := get_latest_semver_spec hg
      obtain ⟨hm', hub'⟩ := get_latest_semver_spec hg'
      have h1 : cmpVer v v' ≠ .gt := hub' v (hpv.mem_iff.mp hm)
      have h2 : cmpVer v' v ≠ .gt := hub v' (hpv.mem_iff.mpr hm')
      obtain ⟨e1, e2, e3, e4⟩ := (cmpVer_eq_iff v v').mp (cmpVer_eq_of_le_ge h1 h2)
      have hfin : finalize_version v = finalize_version v' := by
        unfold finalize_version; rw [e1, e2, e3]
      cases bump with
      | alpha =>
        rw [@main_resolve_pre_branch tags BumpType.alpha "alpha" v rfl hg,
          @main_resolve_pre_branch tags' BumpType.alpha "alpha" v' rfl hg',
          prereleaseBumpResult_perm hpv hw hw' hfin "alpha"]
      | beta =>
        rw [@main_resolve_pre_branch tags BumpType.beta "beta" v rfl hg,
          @main_resolve_pre_branch tags' BumpType.beta "beta" v' rfl hg',
          prereleaseBumpResult_perm hpv hw hw' hfin "beta"]
      | rc =>
        rw [@main_resolve_pre_branch tags BumpType.rc "rc" v rfl hg,
          @main_resolve_pre_branch tags' BumpType.rc "rc" v' rfl hg',
          prereleaseBumpResult_perm hpv hw hw' hfin "rc"]
      | promote_to_final =>
        rw [main_resolve_promote hg, main_resolve_promote hg', e4, hfin]
      | patch => rw [main_resolve_patch hg, main_resolve_patch hg', hfin]
      | minor => rw [main_resolve_minor hg, main_resolve_minor hg', hfin]
      | major => rw [main_resolve_major hg, main_resolve_major hg', hfin]

/-- Witness for C9: swapping a two-tag list leaves a `patch` resolution
unchanged. -/
theorem C9_perm_invariant_witness :
    (∀ v ∈ parsedVersions ["v1.0.0", "v2.0.0"], PreShapeOK v = true) ∧
    main_resolve BumpType.patch ["v1.0.0", "v2.0.0"] =
      main_resolve BumpType.patch ["v2.0.0", "v1.0.0"] :=
  ⟨by decide,
    C9_perm_invariant BumpType.patch _ _
      (List.Perm.swap "v2.0.0" "v1.0.0" []) (by decide)⟩
